import Mathlib

/-!
Verification of `generate_post.py`, an automated content pipeline: it fetches
feed entries, extracts body text, filters short articles, deduplicates by an
MD5 fingerprint of a bounded text prefix, round-robins across content sectors
until a target document count is produced, and writes each document with YAML
front-matter.

The Python source is shallowly embedded below.  External library calls
(feed parsing, page fetching, text extraction, the generative service, NFKD
normalization, the MD5 digest, the clock, and the random shuffle) are modelled
as explicit function parameters or oracle fields; everything the repository
itself computes is translated directly.
-/

namespace GeneratePost

/-! ## Python string primitives used by the source -/

/-- Python `sep.join(parts)`: the parts interleaved with `sep`, no trailing
separator. -/
def pyJoin (sep : String) : List String → String
  | [] => ""
  | [x] => x
  | x :: y :: rest => x ++ sep ++ pyJoin sep (y :: rest)

/-- Python `s.replace('"', '\\"')` on the character list of `s`: each double
quote becomes backslash-quote.  (For a one-character pattern, `str.replace`
rewrites every occurrence left to right.) -/
def escapeList : List Char → List Char
  | [] => []
  | c :: rest => if c = '"' then '\\' :: '"' :: escapeList rest else c :: escapeList rest

/-- String-level wrapper for `escapeList`. -/
def escapeStr (s : String) : String := String.mk (escapeList s.toList)

/-- `wordCountAux cs inWord` counts the words remaining in `cs`, where `inWord`
records whether the previous character was a non-whitespace character.  This is
`len(s.split())` in Python: maximal runs of non-whitespace characters. -/
def wordCountAux : List Char → Bool → Nat
  | [], _ => 0
  | c :: rest, inWord =>
    if c.isWhitespace then wordCountAux rest false
    else (if inWord then 0 else 1) + wordCountAux rest true

/-- `len(text.split())`: the number of whitespace-separated words of `text`. -/
def wordCount (s : String) : Nat := wordCountAux s.toList false

/-- UTF-8 encoding of one code point as byte values, as Python `str.encode()`
produces for each character. -/
def utf8Bytes (c : Char) : List Nat :=
  let n := c.toNat
  if n < 0x80 then [n]
  else if n < 0x800 then [0xC0 + n / 64, 0x80 + n % 64]
  else if n < 0x10000 then [0xE0 + n / 4096, 0x80 + (n / 64) % 64, 0x80 + n % 64]
  else [0xF0 + n / 262144, 0x80 + (n / 4096) % 64, 0x80 + (n / 64) % 64, 0x80 + n % 64]

/-- Scanner for the escaping property: `prevBackslash` records whether the
previous character was a backslash; a double quote is only acceptable right
after a backslash. -/
def quotesEscapedAux : List Char → Bool → Bool
  | [], _ => true
  | c :: rest, prevBackslash =>
    if c = '"' then (if prevBackslash then quotesEscapedAux rest false else false)
    else quotesEscapedAux rest (c = '\\')

/-- Every double quote in the list is immediately preceded by a backslash
(and the list does not start with a quote). -/
def quotesEscapedB (l : List Char) : Bool := quotesEscapedAux l false

/-! ## Data model -/

/-- One fetched-and-extracted source article: the dict of title, url and
extracted text that `fetch_candidates` appends to its result list. -/
structure Candidate where
  title : String
  url : String
  text : String
deriving DecidableEq

/-- A configured content category from `content_sources.yaml`. -/
structure Sector where
  name : String
  feeds : List String
  tags : List String
  keywords : List String
deriving DecidableEq

/-- A parsed feed entry: `e.get("title","")` and `e.get("link")` (`none` when
the key is absent; Python additionally treats an empty-string link as falsy,
which the fetcher checks separately). -/
structure Entry where
  title : String
  link : Option String

/-- The result of `feedparser.parse`: a list of entries.  A parse failure is
modelled as an empty entry list, which is what `feedparser` returns. -/
structure Feed where
  entries : List Entry

/-- A front-matter value as `md_frontmatter` distinguishes them:
`isinstance(v, list)`, `isinstance(v, bool)`, or anything else via `str(v)`
(all remaining values in this program are strings). -/
inductive MetaVal where
  | list (xs : List String)
  | bool (b : Bool)
  | str (s : String)
deriving DecidableEq

/-! ## slugify -/

/-- The character class `[a-zA-Z0-9\- ]` of the first regex in `slugify`. -/
def keepChar (c : Char) : Bool :=
  ('a' ≤ c && c ≤ 'z') || ('A' ≤ c && c ≤ 'Z') || ('0' ≤ c && c ≤ '9') || c = '-' || c = ' '

/-- Python `s.strip()`: drop leading and trailing whitespace.  (At its use
site the string has already been filtered through `keepChar`, so the only
whitespace present is the space character.) -/
def stripWs (l : List Char) : List Char :=
  ((l.dropWhile Char.isWhitespace).reverse.dropWhile Char.isWhitespace).reverse

/-- `re.sub(r"-+","-", s)`: collapse each maximal run of hyphens to a single
hyphen (a hyphen directly followed by another hyphen is dropped). -/
def collapseHyphens : List Char → List Char
  | [] => []
  | [c] => [c]
  | a :: b :: rest =>
    if a = '-' ∧ b = '-' then collapseHyphens (b :: rest)
    else a :: collapseHyphens (b :: rest)

/-- ASCII lowercasing of one character, the computation of `str.lower` on the
ASCII range (its use sites only ever see characters already filtered to
`[a-zA-Z0-9\- ]`, where Python `str.lower` is exactly this shift). -/
def pyLower (c : Char) : Char :=
  if 'A' ≤ c ∧ c ≤ 'Z' then Char.ofNat (c.toNat + 32) else c

/-- The normalization pipeline of `slugify` after NFKD, on a character list:
filter to `[a-zA-Z0-9\- ]`, strip, lowercase, turn spaces into hyphens,
collapse hyphen runs. -/
def slugCore (t : List Char) : List Char :=
  collapseHyphens
    (((stripWs (t.filter keepChar)).map pyLower).map
      (fun c => if c = ' ' then '-' else c))

/-- `slugify(s)`: NFKD-normalize (external `unicodedata.normalize`, passed as
`nfkd`), run the pipeline, and fall back to `"post"` when the result is the
empty string (`… or "post"`). -/
def slugify (nfkd : String → String) (s : String) : String :=
  match slugCore (nfkd s).toList with
  | [] => "post"
  | r => String.mk r

/-- A character allowed in a slug: lowercase ASCII letter, digit, or hyphen. -/
def isSlugChar (c : Char) : Bool :=
  ('a' ≤ c && c ≤ 'z') || ('0' ≤ c && c ≤ '9') || c = '-'

/-! ## md_frontmatter -/

/-- The list-item rendering of `md_frontmatter`: each element is wrapped in
double quotes verbatim, with no escaping applied. -/
def quoteItem (x : String) : String := "\"" ++ x ++ "\""

/-- One `k: v` line of the front-matter block, by the `isinstance` dispatch of
the source: a list becomes a bracketed comma-separated sequence of quoted
items, a boolean becomes `str(v).lower()`, and any other value is quoted with
its embedded double quotes escaped. -/
def renderLine : String × MetaVal → String
  | (k, MetaVal.list xs) => k ++ ": [" ++ pyJoin ", " (xs.map quoteItem) ++ "]"
  | (k, MetaVal.bool b) => k ++ ": " ++ (if b then "true" else "false")
  | (k, MetaVal.str v) => k ++ ": \"" ++ escapeStr v ++ "\""

/-- `md_frontmatter(meta)`: the lines `["---"] + per-field lines + ["---\n"]`
joined with newlines.  Python dictionaries preserve insertion order, so the
mapping is embedded as an ordered association list. -/
def md_frontmatter (meta : List (String × MetaVal)) : String :=
  pyJoin "\n" ("---" :: meta.map renderLine ++ ["---\n"])

/-! ## fetch_candidates -/

/-- Processing of one feed entry inside `fetch_candidates`.  `fetchUrl` models
`trafilatura.fetch_url` and `extract` models `trafilatura.extract`; both
signal failure with a falsy value (`None` or an empty string), which the
embedding collapses to `""` since the source only ever tests truthiness.
An entry is kept when its link is present and non-empty, the page fetch is
truthy, extraction is truthy, and the extracted text has more than 200 words. -/
def processEntry (fetchUrl : String → String) (extract : String → String)
    (e : Entry) : Option Candidate :=
  match e.link with
  | none => none
  | some url =>
    if url = "" then none
    else
      let html := fetchUrl url
      let text := if html = "" then "" else extract html
      if text ≠ "" ∧ wordCount text > 200 then some ⟨e.title, url, text⟩ else none

/-- `fetch_candidates(feeds, max_each)`: for each feed, parse it (`parse`
models `feedparser.parse`), take at most `max_each` entries in feed order, and
keep the entries that `processEntry` retains, in order. -/
def fetch_candidates (fetchUrl : String → String) (extract : String → String)
    (parse : String → Feed) (feeds : List String) (max_each : Nat) : List Candidate :=
  feeds.flatMap (fun f =>
    ((parse f).entries.take max_each).filterMap (processEntry fetchUrl extract))

/-! ## fingerprint and dedup -/

/-- The fingerprint computed inside `dedup`:
`hashlib.md5(it["text"][:2000].encode()).hexdigest()`.  The slice `[:2000]`
takes the first 2000 code points; `.encode()` is UTF-8.  The MD5 hex digest
itself is an external library routine, passed in as `md5hex` over the byte
values. -/
def fingerprint (md5hex : List Nat → String) (text : String) : String :=
  md5hex ((text.toList.take 2000).flatMap utf8Bytes)

/-- The filtering loop of `dedup` before the shuffle: walk the items in order,
keep an item when its fingerprint is not in `seen`, and record kept
fingerprints in `seen`. -/
def dedupCore (fp : String → String) : List Candidate → List String → List Candidate
  | [], _ => []
  | it :: rest, seen =>
    if fp it.text ∈ seen then dedupCore fp rest seen
    else it :: dedupCore fp rest (fp it.text :: seen)

/-- `dedup(items)` as a relation between input and output: the source filters
first-seen fingerprints and then applies `random.shuffle`, an unseeded uniform
permutation, so the possible outputs are exactly the permutations of the
filtered list. -/
def dedup (fp : String → String) (items out : List Candidate) : Prop :=
  out.Perm (dedupCore fp items [])

/-! ## save_post -/

/-- The persisted artifact of `save_post`: the target path, the metadata
mapping passed to `md_frontmatter`, and the written file content. -/
structure SavedDoc where
  path : String
  meta : List (String × MetaVal)
  content : String
deriving DecidableEq

/-- The source list built by `save_post`:
`[s.get("url") for s in picked if s.get("url")]` (keep truthy urls).  The
transient `sector["_picked"]` record is passed explicitly as `picked`. -/
def pickedUrls (picked : List Candidate) : List String :=
  picked.filterMap (fun c => if c.url = "" then none else some c.url)

/-- `save_post(sector, title, body)`.  `today` is the external clock's
`%Y-%m-%d` rendering; `nfkd` is the normalizer `slugify` delegates to.  The
slug is truncated to 60 characters, the section directory is the sector name
with spaces replaced by hyphens and lowercased, and the file content is the
front-matter followed by the body. -/
def save_post (nfkd : String → String) (today : String) (sector : Sector)
    (picked : List Candidate) (title body : String) : SavedDoc :=
  let slug := String.mk ((slugify nfkd title).toList.take 60)
  let meta : List (String × MetaVal) :=
    [("title", MetaVal.str title.trim),
     ("date", MetaVal.str (today ++ "T08:00:00-08:00")),
     ("tags", MetaVal.list sector.tags),
     ("categories", MetaVal.list [sector.name]),
     ("sources", MetaVal.list (pickedUrls picked))]
  let sectionDir := String.mk
    ((sector.name.toList.map (fun c => if c = ' ' then '-' else c)).map pyLower)
  { path := "content/" ++ sectionDir ++ "/" ++ today ++ "-" ++ slug ++ ".md"
    meta := meta
    content := md_frontmatter meta ++ body }

/-! ## The scheduler loop of main -/

/-- The external world of one run, indexed by the iteration counter `si`.
`batch si` is the value of `dedup(fetch_candidates(sector.feeds, 8))` at
iteration `si` (network input and an unseeded shuffle, hence an oracle);
`titleRes si` is the outcome of the title-suggestion service call, `error`
when it raises; `articleRes si` is the outcome of the article-body service
call, `error` when it raises (the source does not catch that one). -/
structure Oracles where
  batch : Nat → List Candidate
  titleRes : Nat → Except Unit String
  articleRes : Nat → Except Unit String
  today : String
  nfkd : String → String

/-- The templated fallback title of the `except` branch, built from the sector
name. -/
def fallbackTitle (sector : Sector) : String := sector.name ++ " 동향 리뷰"

/-- Outcome of one iteration of the `while` loop. -/
inductive StepRes where
  | skip
  | crash
  | wrote (title : String) (doc : SavedDoc)
deriving DecidableEq

/-- One iteration of the scheduler loop at counter `si`: select
`sectors[si % len(sectors)]` (selecting from an empty sector list raises, hence
`crash`), read the deduplicated batch, `skip` when it is empty, otherwise pick
the first three candidates, take the suggested title or fall back on a raise,
obtain the article body (a raise here aborts the run), and save the post. -/
def step (or : Oracles) (sectors : List Sector) (si : Nat) : StepRes :=
  match sectors.get? (si % sectors.length) with
  | none => StepRes.crash
  | some sector =>
    let items := or.batch si
    if items = [] then StepRes.skip
    else
      let picked := items.take 3
      let title :=
        match or.titleRes si with
        | Except.ok t => t
        | Except.error _ => fallbackTitle sector
      match or.articleRes si with
      | Except.error _ => StepRes.crash
      | Except.ok article =>
        StepRes.wrote title (save_post or.nfkd or.today sector picked title article)

/-- How a run of the scheduler loop ends: normal completion with the recorded
paths, an uncaught exception, or fuel exhaustion (the loop is still running). -/
inductive LoopOut where
  | done (written : List String)
  | crash
  | spin
deriving DecidableEq

/-- The `while len(written) < total` loop of `main`, with explicit fuel: at
each step the guard is tested; a skipped iteration advances `si` only, a
written document appends its path.  `spin` means the fuel ran out with the
guard still true. -/
def mainLoop (or : Oracles) (sectors : List Sector) (total : Nat) :
    Nat → Nat → List String → LoopOut
  | 0, _, written => if written.length < total then LoopOut.spin else LoopOut.done written
  | fuel + 1, si, written =>
    if written.length < total then
      match step or sectors si with
      | StepRes.skip => mainLoop or sectors total fuel (si + 1) written
      | StepRes.crash => LoopOut.crash
      | StepRes.wrote _ doc => mainLoop or sectors total fuel (si + 1) (written ++ [doc.path])
    else LoopOut.done written

/-- `main` with a requested count: the source clamps the requested count with
`total = max(1, args.count)` before entering the loop with `si = 0` and
`written = []`. -/
def runMain (or : Oracles) (sectors : List Sector) (count : Int) (fuel : Nat) : LoopOut :=
  mainLoop or sectors (max 1 count).toNat fuel 0 []

/-! ## Lemmas: slugify -/

/-- `collapseHyphens` keeps the head of a non-empty list. -/
theorem collapse_head : ∀ (l : List Char) (b : Char), ∃ t, collapseHyphens (b :: l) = b :: t
  | [], _ => ⟨[], rfl⟩
  | c :: r, b => by
    by_cases h : b = '-' ∧ c = '-'
    · obtain ⟨t, ht⟩ := collapse_head r c
      exact ⟨t, by simp only [collapseHyphens, if_pos h]; rw [ht, h.1, h.2]⟩
    · exact ⟨collapseHyphens (c :: r), by simp only [collapseHyphens, if_neg h]⟩

/-- After collapsing, no hyphen is directly followed by another hyphen. -/
theorem collapse_chain :
    ∀ l : List Char, (collapseHyphens l).Chain' (fun a b => ¬(a = '-' ∧ b = '-'))
  | [] => by simp [collapseHyphens]
  | [c] => by simp [collapseHyphens]
  | a :: b :: rest => by
    have ih := collapse_chain (b :: rest)
    by_cases h : a = '-' ∧ b = '-'
    · simpa only [collapseHyphens, if_pos h] using ih
    · obtain ⟨t, ht⟩ := collapse_head rest b
      simp only [collapseHyphens, if_neg h, ht]
      rw [ht] at ih
      exact List.chain'_cons.mpr ⟨h, ih⟩

/-- Collapsing hyphen runs introduces no new characters. -/
theorem collapse_subset : ∀ (l : List Char), ∀ c ∈ collapseHyphens l, c ∈ l
  | [] => by simp [collapseHyphens]
  | [x] => by simp [collapseHyphens]
  | a :: b :: rest => by
    intro c hc
    by_cases h : a = '-' ∧ b = '-'
    · simp only [collapseHyphens, if_pos h] at hc
      exact List.mem_cons_of_mem a (collapse_subset (b :: rest) c hc)
    · simp only [collapseHyphens, if_neg h, List.mem_cons] at hc
      rcases hc with rfl | hc
      · exact List.mem_cons_self c (b :: rest)
      · exact List.mem_cons_of_mem a (collapse_subset (b :: rest) c hc)

/-- Stripping introduces no new characters. -/
theorem stripWs_subset (l : List Char) : ∀ c ∈ stripWs l, c ∈ l := by
  intro c hc
  unfold stripWs at hc
  rw [List.mem_reverse] at hc
  have h1 := (List.dropWhile_suffix _).sublist.subset hc
  rw [List.mem_reverse] at h1
  exact (List.dropWhile_suffix _).sublist.subset h1

/-- Any character kept by the regex class, once lowercased and space-to-hyphen
mapped, is a lowercase alphanumeric or a hyphen. -/
theorem slug_char_step (c : Char) (h : keepChar c = true) :
    isSlugChar (if pyLower c = ' ' then '-' else pyLower c) = true := by
  simp only [keepChar, Bool.or_eq_true, Bool.and_eq_true, decide_eq_true_eq] at h
  rcases h with ((((⟨h1, h2⟩ | ⟨h1, h2⟩) | ⟨h1, h2⟩) | h1) | h1)
  · -- lowercase letter: unchanged
    have hn1 : 97 ≤ c.toNat := h1
    have hn2 : c.toNat ≤ 122 := h2
    have hpl : pyLower c = c := by
      unfold pyLower
      rw [if_neg]
      rintro ⟨g1, g2⟩
      have gn2 : c.toNat ≤ 90 := g2
      omega
    rw [hpl, if_neg]
    · simp only [isSlugChar, Bool.or_eq_true, Bool.and_eq_true, decide_eq_true_eq]
      exact Or.inl (Or.inl ⟨h1, h2⟩)
    · rintro rfl
      exact absurd hn1 (by decide)
  · -- uppercase letter: shifted down by 32
    have hn1 : 65 ≤ c.toNat := h1
    have hn2 : c.toNat ≤ 90 := h2
    have hval : (c.toNat + 32).isValidChar := Or.inl (by omega)
    have htn : (Char.ofNat (c.toNat + 32)).toNat = c.toNat + 32 := by
      unfold Char.ofNat
      rw [dif_pos hval]
      rfl
    have hpl : pyLower c = Char.ofNat (c.toNat + 32) := by
      unfold pyLower
      rw [if_pos ⟨h1, h2⟩]
    rw [hpl, if_neg]
    · simp only [isSlugChar, Bool.or_eq_true, Bool.and_eq_true, decide_eq_true_eq]
      refine Or.inl (Or.inl ⟨?_, ?_⟩)
      · show 97 ≤ (Char.ofNat (c.toNat + 32)).toNat
        omega
      · show (Char.ofNat (c.toNat + 32)).toNat ≤ 122
        omega
    · intro hceq
      rw [hceq] at htn
      have h32 : (' ' : Char).toNat = 32 := rfl
      omega
  · -- digit: unchanged
    have hn1 : 48 ≤ c.toNat := h1
    have hn2 : c.toNat ≤ 57 := h2
    have hpl : pyLower c = c := by
      unfold pyLower
      rw [if_neg]
      rintro ⟨g1, g2⟩
      have gn1 : 65 ≤ c.toNat := g1
      omega
    rw [hpl, if_neg]
    · simp only [isSlugChar, Bool.or_eq_true, Bool.and_eq_true, decide_eq_true_eq]
      exact Or.inl (Or.inr ⟨h1, h2⟩)
    · rintro rfl
      exact absurd hn1 (by decide)
  · subst h1; decide
  · subst h1; decide

/-- Every character produced by the slug pipeline is a lowercase ASCII
alphanumeric or a hyphen. -/
theorem slugCore_chars (t : List Char) : ∀ c ∈ slugCore t, isSlugChar c = true := by
  intro c hc
  unfold slugCore at hc
  have h1 := collapse_subset _ c hc
  rw [List.mem_map] at h1
  obtain ⟨d, hd, rfl⟩ := h1
  rw [List.mem_map] at hd
  obtain ⟨e, he, rfl⟩ := hd
  have he2 := stripWs_subset _ e he
  rw [List.mem_filter] at he2
  exact slug_char_step e he2.2

/-! ## Claim C4 -/

/-- C4: For every title string, `slugify` produces a string containing only
lowercase ASCII alphanumerics and hyphens, with no two consecutive hyphens,
and the result is non-empty: when normalization empties the string (e.g. an
all-symbol title) it yields the fallback token `"post"` rather than an empty
string. -/
theorem C4_slugify_normalized (nfkd : String → String) (s : String) :
    slugify nfkd s ≠ "" ∧
    (∀ c ∈ (slugify nfkd s).toList, isSlugChar c = true) ∧
    (slugify nfkd s).toList.Chain' (fun a b => ¬(a = '-' ∧ b = '-')) ∧
    (slugCore (nfkd s).toList = [] → slugify nfkd s = "post") := by
  rcases heq : slugCore (nfkd s).toList with _ | ⟨a, t⟩
  · have hs : slugify nfkd s = "post" := by unfold slugify; rw [heq]
    rw [hs]
    refine ⟨by decide, by decide, ?_, fun _ => rfl⟩
    exact List.Chain.cons (by decide) (List.Chain.cons (by decide)
      (List.Chain.cons (by decide) List.Chain.nil))
  · have hs : slugify nfkd s = String.mk (a :: t) := by unfold slugify; rw [heq]
    have htl : (String.mk (a :: t)).toList = a :: t := rfl
    rw [hs]
    refine ⟨?_, ?_, ?_, ?_⟩
    · intro h
      exact absurd (congrArg String.toList h) (by simp)
    · intro c hc
      rw [htl, ← heq] at hc
      exact slugCore_chars _ c hc
    · rw [htl, ← heq]
      unfold slugCore
      exact collapse_chain _
    · intro h
      cases h

/-- C4 applied at a concrete all-symbol title: normalization empties the
string and the fallback token is produced. -/
theorem C4_slugify_normalized_witness : slugify id "!!!" = "post" :=
  (C4_slugify_normalized id "!!!").2.2.2 (by decide)

/-! ## Lemmas: front-matter -/

/-- Escaping with `escapeList` leaves every double quote preceded by a
backslash, whatever the incoming scanner flag is. -/
theorem escape_escaped_aux :
    ∀ (l : List Char) (b : Bool), quotesEscapedAux (escapeList l) b = true
  | [], _ => rfl
  | c :: rest, b => by
    by_cases h : c = '"'
    · subst h
      have ih := escape_escaped_aux rest false
      simp [escapeList, quotesEscapedAux, ih]
    · have ih := escape_escaped_aux rest (decide (c = '\\'))
      simp [escapeList, quotesEscapedAux, h, ih]

/-- In an escaped string every double quote is preceded by a backslash. -/
theorem escapeStr_escaped (s : String) : quotesEscapedB (escapeStr s).toList = true :=
  escape_escaped_aux s.toList false

/-! ## Claims C6 and C9 -/

/-- C6: For every metadata mapping containing a list-valued field, a boolean
field, and a string field with an embedded double quote, `md_frontmatter`
renders the list as a bracketed comma-separated sequence of double-quoted
items, the boolean as a lowercase literal, and the string field double-quoted
with its embedded double quotes escaped (every quote of the escaped text is
preceded by a backslash), all between an opening and a closing `---` line. -/
theorem C6_frontmatter_rendering (k1 k2 k3 : String) (xs : List String) (b : Bool)
    (s : String) :
    md_frontmatter [(k1, MetaVal.list xs), (k2, MetaVal.bool b), (k3, MetaVal.str s)] =
      "---\n" ++ k1 ++ ": [" ++ pyJoin ", " (xs.map quoteItem) ++ "]" ++ "\n" ++
      k2 ++ ": " ++ (if b then "true" else "false") ++ "\n" ++
      k3 ++ ": \"" ++ escapeStr s ++ "\"" ++ "\n" ++ "---\n" ∧
    quotesEscapedB (escapeStr s).toList = true := by
  constructor
  · simp [md_frontmatter, renderLine, pyJoin, String.append_assoc]
  · exact escapeStr_escaped s

/-- C9: Elements of list-valued fields are wrapped in double quotes verbatim,
without escaping embedded double quotes, unlike scalar string fields whose
embedded quotes are escaped. -/
theorem C9_list_items_not_escaped (k x : String) :
    md_frontmatter [(k, MetaVal.list [x])] =
      "---\n" ++ k ++ ": [" ++ "\"" ++ x ++ "\"" ++ "]" ++ "\n" ++ "---\n" ∧
    md_frontmatter [(k, MetaVal.str x)] =
      "---\n" ++ k ++ ": \"" ++ escapeStr x ++ "\"" ++ "\n" ++ "---\n" := by
  constructor
  · simp only [md_frontmatter, renderLine, pyJoin, quoteItem, List.map_cons,
      List.map_nil, String.append_assoc]
    rw [← String.append_assoc "---" "\n"]
    rfl
  · simp [md_frontmatter, renderLine, pyJoin, quoteItem, String.append_assoc]

/-! ## Claims C8 and C10 -/

/-- C8: The fingerprint used by `dedup` is a total deterministic function of
the first 2000 characters of a candidate's text: two texts with identical
2000-character prefixes receive equal digests, and the computation is defined
on every string, including the empty string (where the digest is taken over
the empty byte sequence). -/
theorem C8_fingerprint_truncation (md5hex : List Nat → String) (t1 t2 : String)
    (h : t1.toList.take 2000 = t2.toList.take 2000) :
    fingerprint md5hex t1 = fingerprint md5hex t2 ∧ fingerprint md5hex "" = md5hex [] := by
  constructor
  · unfold fingerprint
    rw [h]
  · rfl

/-- C8 applied to two concrete texts that agree on the first 2000 characters
and differ afterwards. -/
theorem C8_fingerprint_truncation_witness :
    fingerprint (fun l => toString l.length) (String.mk (List.replicate 2000 'a' ++ ['b'])) =
      fingerprint (fun l => toString l.length) (String.mk (List.replicate 2000 'a' ++ ['c'])) :=
  (C8_fingerprint_truncation (fun l => toString l.length) _ _
    (by
      show (List.replicate 2000 'a' ++ ['b']).take 2000 =
        (List.replicate 2000 'a' ++ ['c']).take 2000
      have hlen : 2000 ≤ (List.replicate 2000 'a').length :=
        le_of_eq (List.length_replicate 2000 'a').symm
      rw [List.take_append_of_le_length hlen, List.take_append_of_le_length hlen])).1

/-- C10: The `date` metadata field written by `save_post` is always the
current date joined with the fixed hardcoded time-of-day and offset
`T08:00:00-08:00`; no component other than the date varies between runs. -/
theorem C10_save_post_date (nfkd : String → String) (today : String) (sector : Sector)
    (picked : List Candidate) (title body : String) :
    (save_post nfkd today sector picked title body).meta.lookup "date" =
      some (MetaVal.str (today ++ "T08:00:00-08:00")) := by
  simp [save_post, List.lookup]

/-! ## Lemmas: dedup -/

/-- The filtered list is never longer than the input. -/
theorem dedupCore_length (fp : String → String) :
    ∀ (items : List Candidate) (seen : List String),
      (dedupCore fp items seen).length ≤ items.length
  | [], _ => le_refl 0
  | it :: rest, seen => by
    by_cases h : fp it.text ∈ seen
    · simp only [dedupCore, if_pos h]
      exact le_trans (dedupCore_length fp rest seen) (Nat.le_succ _)
    · simp only [dedupCore, if_neg h, List.length_cons]
      exact Nat.succ_le_succ (dedupCore_length fp rest _)

/-- The fingerprints of the filtered list are pairwise distinct, and none of
them lies in the incoming `seen` set. -/
theorem dedupCore_fps_nodup (fp : String → String) :
    ∀ (items : List Candidate) (seen : List String),
      ((dedupCore fp items seen).map (fun c => fp c.text)).Nodup ∧
      ∀ g ∈ (dedupCore fp items seen).map (fun c => fp c.text), g ∉ seen
  | [], seen => by simp [dedupCore]
  | it :: rest, seen => by
    by_cases h : fp it.text ∈ seen
    · simp only [dedupCore, if_pos h]
      exact dedupCore_fps_nodup fp rest seen
    · obtain ⟨ih1, ih2⟩ := dedupCore_fps_nodup fp rest (fp it.text :: seen)
      simp only [dedupCore, if_neg h, List.map_cons, List.nodup_cons]
      refine ⟨⟨?_, ih1⟩, ?_⟩
      · intro hmem
        exact ih2 _ hmem (List.mem_cons_self _ _)
      · intro g hg
        rcases List.mem_cons.mp hg with rfl | hg2
        · exact h
        · intro hgseen
          exact ih2 _ hg2 (List.mem_cons_of_mem _ hgseen)

/-- On a list whose fingerprints are already pairwise distinct and disjoint
from `seen`, the filter is the identity. -/
theorem dedupCore_eq_self (fp : String → String) :
    ∀ (l : List Candidate) (seen : List String),
      ((l.map (fun c => fp c.text)).Nodup) → (∀ c ∈ l, fp c.text ∉ seen) →
      dedupCore fp l seen = l
  | [], _ => by simp [dedupCore]
  | it :: rest, seen => by
    intro hnd hns
    have hnotin : fp it.text ∉ seen := hns it (List.mem_cons_self _ _)
    simp only [dedupCore, if_neg hnotin]
    rw [List.map_cons, List.nodup_cons] at hnd
    congr 1
    refine dedupCore_eq_self fp rest _ hnd.2 ?_
    intro c hc
    rw [List.mem_cons]
    rintro (heq | hin)
    · exact hnd.1 (heq ▸ List.mem_map_of_mem (fun c => fp c.text) hc)
    · exact hns c (List.mem_cons_of_mem _ hc) hin

/-- Membership in the filtered list: a candidate is kept exactly when its
fingerprint avoids `seen` and it occurs in the input strictly before any other
occurrence of its fingerprint (first-seen wins). -/
theorem dedupCore_mem_iff (fp : String → String) :
    ∀ (l : List Candidate) (seen : List String) (c : Candidate),
      c ∈ dedupCore fp l seen ↔
        fp c.text ∉ seen ∧
        ∃ l₁ l₂, l = l₁ ++ c :: l₂ ∧ ∀ b ∈ l₁, fp b.text ≠ fp c.text
  | [], seen, c => by
    simp only [dedupCore, List.not_mem_nil, false_iff, not_and]
    rintro - ⟨l₁, l₂, heq, -⟩
    exact absurd heq.symm (List.append_ne_nil_of_right_ne_nil l₁ (List.cons_ne_nil c l₂))
  | it :: rest, seen, c => by
    by_cases h : fp it.text ∈ seen
    · rw [show dedupCore fp (it :: rest) seen = dedupCore fp rest seen from by
        simp only [dedupCore, if_pos h]]
      rw [dedupCore_mem_iff fp rest seen c]
      constructor
      · rintro ⟨hns, l₁, l₂, heq, hall⟩
        refine ⟨hns, it :: l₁, l₂, by rw [heq, List.cons_append], ?_⟩
        intro b hb
        rcases List.mem_cons.mp hb with rfl | hb2
        · intro heqfp
          exact hns (heqfp ▸ h)
        · exact hall b hb2
      · rintro ⟨hns, l₁, l₂, heq, hall⟩
        cases l₁ with
        | nil =>
          rw [List.nil_append] at heq
          cases heq
          exact absurd h hns
        | cons b l₁' =>
          rw [List.cons_append] at heq
          injection heq with heq1 heq2
          exact ⟨hns, l₁', l₂, heq2, fun b' hb' => hall b' (List.mem_cons_of_mem _ hb')⟩
    · rw [show dedupCore fp (it :: rest) seen = it :: dedupCore fp rest (fp it.text :: seen)
        from by simp only [dedupCore, if_neg h]]
      rw [List.mem_cons, dedupCore_mem_iff fp rest (fp it.text :: seen) c]
      constructor
      · rintro (rfl | ⟨hns, l₁, l₂, heq, hall⟩)
        · exact ⟨h, [], rest, rfl, by simp⟩
        · have hne : fp c.text ≠ fp it.text := fun g => hns (by rw [g]; exact List.mem_cons_self _ _)
          refine ⟨fun g => hns (List.mem_cons_of_mem _ g), it :: l₁, l₂,
            by rw [heq, List.cons_append], ?_⟩
          intro b hb
          rcases List.mem_cons.mp hb with rfl | hb2
          · exact fun g => hne g.symm
          · exact hall b hb2
      · rintro ⟨hns, l₁, l₂, heq, hall⟩
        cases l₁ with
        | nil =>
          rw [List.nil_append] at heq
          injection heq with heq1 heq2
          exact Or.inl heq1.symm
        | cons b l₁' =>
          rw [List.cons_append] at heq
          injection heq with heq1 heq2
          subst heq1
          refine Or.inr ⟨?_, l₁', l₂, heq2, fun b' hb' => hall b' (List.mem_cons_of_mem _ hb')⟩
          rw [List.mem_cons]
          rintro (g | g)
          · exact hall it (List.mem_cons_self _ _) g.symm
          · exact hns g

/-! ## Claims C3 and C7 -/

/-- C3: For every candidate list `xs` and every possible output `out` of
`dedup` (a permutation of the first-seen filter, the shuffle being random),
`out` is at most as long as `xs`, no two of its elements share a fingerprint,
and its elements are exactly those occurring in `xs` strictly before any
earlier occurrence of the same fingerprint (first-seen wins), up to the final
random permutation. -/
theorem C3_dedup_first_seen (fp : String → String) (xs out : List Candidate)
    (h : dedup fp xs out) :
    out.length ≤ xs.length ∧
    (out.map (fun c => fp c.text)).Nodup ∧
    ∀ c, c ∈ out ↔ ∃ l₁ l₂, xs = l₁ ++ c :: l₂ ∧ ∀ b ∈ l₁, fp b.text ≠ fp c.text := by
  have hperm : out.Perm (dedupCore fp xs []) := h
  refine ⟨?_, ?_, ?_⟩
  · rw [hperm.length_eq]
    exact dedupCore_length fp xs []
  · exact ((hperm.map (fun c => fp c.text)).nodup_iff).mpr (dedupCore_fps_nodup fp xs []).1
  · intro c
    rw [hperm.mem_iff, dedupCore_mem_iff fp xs [] c]
    simp

/-- C3 applied to a concrete pair sharing a fingerprint: only the first
occurrence survives, and the survivors' fingerprints are distinct. -/
theorem C3_dedup_first_seen_witness :
    (([⟨"a", "u", "x"⟩] : List Candidate).map (fun c => (fun s => s) c.text)).Nodup :=
  (C3_dedup_first_seen (fun s => s) [⟨"a", "u", "x"⟩, ⟨"b", "v", "x"⟩] [⟨"a", "u", "x"⟩]
    (List.Perm.refl _)).2.1

/-- C7: Deduplication is idempotent on fingerprint sets: whatever permutations
the two random shuffles produce, running `dedup` on an output of `dedup`
leaves the set of fingerprints unchanged. -/
theorem C7_dedup_idempotent (fp : String → String) (xs ys zs : List Candidate)
    (h1 : dedup fp xs ys) (h2 : dedup fp ys zs) :
    (zs.map (fun c => fp c.text)).toFinset = (ys.map (fun c => fp c.text)).toFinset := by
  have hys : (ys.map (fun c => fp c.text)).Nodup :=
    ((List.Perm.map (fun c => fp c.text) h1).nodup_iff).mpr (dedupCore_fps_nodup fp xs []).1
  have heq : dedupCore fp ys [] = ys :=
    dedupCore_eq_self fp ys [] hys (by simp)
  have h2' : zs.Perm ys := by
    have h2b : zs.Perm (dedupCore fp ys []) := h2
    rwa [heq] at h2b
  exact List.toFinset_eq_of_perm _ _ (h2'.map (fun c => fp c.text))

/-- C7 applied to a concrete two-element list and two nontrivial shuffles. -/
theorem C7_dedup_idempotent_witness :
    (([⟨"a", "u", "x"⟩, ⟨"b", "v", "y"⟩] : List Candidate).map
        (fun c => (fun s => s) c.text)).toFinset =
      (([⟨"b", "v", "y"⟩, ⟨"a", "u", "x"⟩] : List Candidate).map
        (fun c => (fun s => s) c.text)).toFinset :=
  C7_dedup_idempotent (fun s => s)
    [⟨"a", "u", "x"⟩, ⟨"b", "v", "y"⟩]
    [⟨"b", "v", "y"⟩, ⟨"a", "u", "x"⟩]
    [⟨"a", "u", "x"⟩, ⟨"b", "v", "y"⟩]
    (List.Perm.swap _ _ _) (List.Perm.swap _ _ _)

/-! ## Claim C2 -/

/-- A text of exactly 200 whitespace-separated words. -/
def twoHundredWords : String := pyJoin " " (List.replicate 200 "w")

/-- A text of exactly 201 whitespace-separated words. -/
def twoHundredOneWords : String := pyJoin " " (List.replicate 201 "w")

/-- C2 (amended): an entry processed by `fetch_candidates` is retained as a
Candidate iff it has a present non-empty link, the page fetch is truthy,
extraction yields non-empty text, and the extracted text has strictly more
than 200 words, i.e. at least 201 (the source tests `len(text.split()) > 200`,
so an entry whose text has exactly 200 words is discarded). -/
theorem C2_fetch_retention (fetchUrl extract : String → String) (e : Entry) :
    (∃ c, processEntry fetchUrl extract e = some c) ↔
      ∃ url, e.link = some url ∧ url ≠ "" ∧ fetchUrl url ≠ "" ∧
        extract (fetchUrl url) ≠ "" ∧ wordCount (extract (fetchUrl url)) > 200 := by
  obtain ⟨t, link⟩ := e
  cases link with
  | none => simp [processEntry]
  | some url =>
    simp only [processEntry, Option.some.injEq, exists_eq_left']
    by_cases hu : url = ""
    · simp [hu]
    · simp only [if_neg hu]
      by_cases hh : fetchUrl url = ""
      · simp [hh, hu]
      · simp only [if_neg hh]
        by_cases ha : extract (fetchUrl url) = ""
        · simp [ha, hu, hh]
        · by_cases hw : wordCount (extract (fetchUrl url)) > 200
          · simp [ha, hw, hu, hh]
          · simp [ha, hw, hu, hh]

set_option maxRecDepth 40000 in
/-- C2 as frozen is false on the code: a concrete entry whose extracted text
has exactly 200 words is discarded, not retained. -/
theorem C2_fetch_retention_counterexample :
    wordCount twoHundredWords = 200 ∧
    processEntry (fun _ => "h") (fun _ => twoHundredWords) ⟨"t", some "u"⟩ = none := by
  constructor
  · decide
  · decide

set_option maxRecDepth 40000 in
/-- C2 (amended) applied at a concrete entry with 201 words: retained. -/
theorem C2_fetch_retention_witness :
    ∃ c, processEntry (fun _ => "h") (fun _ => twoHundredOneWords) ⟨"t", some "u"⟩ = some c :=
  (C2_fetch_retention (fun _ => "h") (fun _ => twoHundredOneWords) ⟨"t", some "u"⟩).mpr
    ⟨"u", rfl, by decide, by decide, by decide, by decide⟩

/-! ## Lemmas: the scheduler loop -/

/-- Invariant of the `while` loop: starting below the target, a normal exit
carries exactly `total` recorded paths — each successful iteration appends one
path under the guard, and the loop exits as soon as the guard fails. -/
theorem mainLoop_done_length (or : Oracles) (sectors : List Sector) (total : Nat) :
    ∀ (fuel si : Nat) (written paths : List String), written.length ≤ total →
      mainLoop or sectors total fuel si written = LoopOut.done paths →
      paths.length = total
  | 0, si, written, paths => by
    intro hle hdone
    simp only [mainLoop] at hdone
    split at hdone
    · cases hdone
    · next hnlt =>
      cases hdone
      omega
  | fuel + 1, si, written, paths => by
    intro hle hdone
    simp only [mainLoop] at hdone
    split at hdone
    · next hlt =>
      cases hstep : step or sectors si with
      | skip =>
        simp only [hstep] at hdone
        exact mainLoop_done_length or sectors total fuel (si + 1) written paths hle hdone
      | crash =>
        simp only [hstep] at hdone
        cases hdone
      | wrote t doc =>
        simp only [hstep] at hdone
        refine mainLoop_done_length or sectors total fuel (si + 1)
          (written ++ [doc.path]) paths ?_ hdone
        rw [List.length_append]
        simpa using hlt
    · next hnlt =>
      cases hdone
      omega

/-! ## Concrete fixtures for running the scheduler on closed inputs -/

/-- A one-sector configuration. -/
def wSector : Sector := ⟨"AI", ["feed"], ["tag"], ["kw"]⟩

/-- One deduplicated candidate. -/
def wCand : Candidate := ⟨"t", "u", "x"⟩

/-- A run in which every external call succeeds. -/
def wOrOk : Oracles :=
  ⟨fun _ => [wCand], fun _ => Except.ok "T", fun _ => Except.ok "body", "2026-01-01", id⟩

/-- A run in which the title-suggestion call raises at every iteration. -/
def wOrFail : Oracles :=
  ⟨fun _ => [wCand], fun _ => Except.error (), fun _ => Except.ok "body", "2026-01-01", id⟩

/-! ## Claims C1 and C5 -/

/-- C1 (amended): for every sector list and requested count, if the scheduler
loop in `main` terminates normally then the number of recorded output paths
equals `max 1 count`: the source clamps the requested count from below with
`total = max(1, args.count)`, so the paths equal the requested count whenever
at least one document is requested, and one path is recorded when zero or
fewer are requested.  The loop never records more than the (clamped) target
and never exits normally before reaching it. -/
theorem C1_scheduler_count (or : Oracles) (sectors : List Sector) (count : Int)
    (fuel : Nat) (paths : List String)
    (h : runMain or sectors count fuel = LoopOut.done paths) :
    paths.length = (max 1 count).toNat :=
  mainLoop_done_length or sectors _ fuel 0 [] paths (Nat.zero_le _) h

/-- C1 as frozen is false on the code: requesting zero documents makes the
loop terminate normally with one recorded path, not zero, because `main`
clamps the requested count to at least one. -/
theorem C1_scheduler_count_counterexample :
    runMain wOrOk [wSector] 0 2 = LoopOut.done ["content/ai/2026-01-01-t.md"] ∧
    ["content/ai/2026-01-01-t.md"].length ≠ 0 := by
  constructor
  · rfl
  · decide

/-- C1 (amended) applied at a concrete run requesting two documents: exactly
two paths are recorded. -/
theorem C1_scheduler_count_witness :
    ["content/ai/2026-01-01-t.md", "content/ai/2026-01-01-t.md"].length =
      (max 1 (2 : Int)).toNat :=
  C1_scheduler_count wOrOk [wSector] 2 4
    ["content/ai/2026-01-01-t.md", "content/ai/2026-01-01-t.md"] rfl

/-- C5: in each scheduler iteration that reaches title generation (the batch
is non-empty) and whose article call succeeds, a failing title-suggestion
call makes the iteration proceed with the deterministic templated title built
from the sector name instead of failing the run, and a successful call makes
its returned text the title. -/
theorem C5_title_fallback (or : Oracles) (sectors : List Sector) (si : Nat)
    (sector : Sector) (hsec : sectors.get? (si % sectors.length) = some sector)
    (hb : or.batch si ≠ []) (art : String) (ha : or.articleRes si = Except.ok art) :
    (∀ e, or.titleRes si = Except.error e →
      step or sectors si = StepRes.wrote (fallbackTitle sector)
        (save_post or.nfkd or.today sector ((or.batch si).take 3) (fallbackTitle sector) art)) ∧
    (∀ t, or.titleRes si = Except.ok t →
      step or sectors si = StepRes.wrote t
        (save_post or.nfkd or.today sector ((or.batch si).take 3) t art)) := by
  constructor
  · intro e he
    simp only [step, hsec, if_neg hb, he, ha]
  · intro t ht
    simp only [step, hsec, if_neg hb, ht, ha]

/-- C5 applied at a concrete iteration whose title call raises: the document
is still produced, with the templated fallback title. -/
theorem C5_title_fallback_witness :
    step wOrFail [wSector] 0 =
      StepRes.wrote (fallbackTitle wSector)
        (save_post wOrFail.nfkd wOrFail.today wSector ((wOrFail.batch 0).take 3)
          (fallbackTitle wSector) "body") :=
  (C5_title_fallback wOrFail [wSector] 0 wSector rfl (by decide) "body" rfl).1 () rfl

end GeneratePost
